import Mathlib

/-!
Verification of the fallback HTTP transport backend in
`app/core/http_client.py` (the aiohttp-based `_AiohttpAsyncSession` /
`_AiohttpResponse` layer used when `curl_cffi` is unavailable).

Bodies and chunks are modelled as lists of byte values (`List Nat`,
each < 256); decoded text is modelled as `List Char`.  Python dicts of
strings are modelled as insertion-ordered association lists with
overwrite-in-place assignment, matching CPython dict semantics for the
operations the source uses (`get`, `[]=`, `update`).
-/

set_option autoImplicit false

namespace HttpClient

/-- A byte value (0..255). -/
abbrev Byte := Nat

/-- The Unicode replacement character U+FFFD, produced by
`bytes.decode("utf-8", errors="replace")` for invalid sequences. -/
def replacementChar : Char := Char.ofNat 0xFFFD

/-- Is `b` a UTF-8 continuation byte (`0x80..0xBF`)? -/
def isCont (b : Byte) : Bool := 0x80 ≤ b && b ≤ 0xBF

/-- Fuel-driven worker for `decodeUtf8Replace`.  Every recursive call
consumes at least one input byte, so calling it with `fuel = input
length` never hits the fuel-exhausted branch. -/
def decodeUtf8Aux : Nat → List Byte → List Char
  | _, [] => []
  | 0, _ => []
  | fuel + 1, b :: rest =>
    if b < 0x80 then Char.ofNat b :: decodeUtf8Aux fuel rest
    else if 0xC2 ≤ b && b ≤ 0xDF then
      match rest with
      | b2 :: rest2 =>
        if isCont b2 then
          Char.ofNat ((b - 0xC0) * 0x40 + (b2 - 0x80)) :: decodeUtf8Aux fuel rest2
        else replacementChar :: decodeUtf8Aux fuel rest
      | [] => [replacementChar]
    else if 0xE0 ≤ b && b ≤ 0xEF then
      match rest with
      | b2 :: rest2 =>
        -- lead-specific ranges: E0 needs A0..BF, ED needs 80..9F
        if isCont b2 && (b ≠ 0xE0 || 0xA0 ≤ b2) && (b ≠ 0xED || b2 ≤ 0x9F) then
          match rest2 with
          | b3 :: rest3 =>
            if isCont b3 then
              Char.ofNat ((b - 0xE0) * 0x1000 + (b2 - 0x80) * 0x40 + (b3 - 0x80))
                :: decodeUtf8Aux fuel rest3
            else replacementChar :: decodeUtf8Aux fuel rest2
          | [] => [replacementChar]
        else replacementChar :: decodeUtf8Aux fuel rest
      | [] => [replacementChar]
    else if 0xF0 ≤ b && b ≤ 0xF4 then
      match rest with
      | b2 :: rest2 =>
        -- lead-specific ranges: F0 needs 90..BF, F4 needs 80..8F
        if isCont b2 && (b ≠ 0xF0 || 0x90 ≤ b2) && (b ≠ 0xF4 || b2 ≤ 0x8F) then
          match rest2 with
          | b3 :: rest3 =>
            if isCont b3 then
              match rest3 with
              | b4 :: rest4 =>
                if isCont b4 then
                  Char.ofNat ((b - 0xF0) * 0x40000 + (b2 - 0x80) * 0x1000 +
                      (b3 - 0x80) * 0x40 + (b4 - 0x80)) :: decodeUtf8Aux fuel rest4
                else replacementChar :: decodeUtf8Aux fuel rest3
              | [] => [replacementChar]
            else replacementChar :: decodeUtf8Aux fuel rest2
          | [] => [replacementChar]
        else replacementChar :: decodeUtf8Aux fuel rest
      | [] => [replacementChar]
    else replacementChar :: decodeUtf8Aux fuel rest

/-- Model of `bytes.decode("utf-8", errors="replace")`: decodes the byte
list, replacing each maximal invalid subpart with U+FFFD.  Handles the
standard 1-4 byte forms with the RFC 3629 lead/continuation constraints
(overlongs, surrogates and values above U+10FFFF are invalid). -/
def decodeUtf8Replace (bs : List Byte) : List Char :=
  decodeUtf8Aux bs.length bs

/-- Model of `str.rstrip("\r")`: removes every trailing carriage return. -/
def rstripCR (s : List Char) : List Char :=
  ((s.reverse).dropWhile (fun c => c = '\r')).reverse

/-- Splits a byte buffer into the list of complete lines (the segments
before each `\n` byte, in order) and the remaining partial line after the
last `\n`.  This is the net effect of the source loop
`while b"\n" in buf: raw, buf = buf.split(b"\n", 1)`. -/
def splitNL : List Byte → List (List Byte) × List Byte
  | [] => ([], [])
  | b :: rest =>
    let p := splitNL rest
    if b = 10 then ([] :: p.1, p.2)
    else
      match p.1 with
      | [] => ([], b :: p.2)
      | l :: ls => ((b :: l) :: ls, p.2)

/-- Characters that `str.splitlines()` treats as line boundaries
(besides the combined `\r\n`). -/
def isLineBoundary (c : Char) : Bool :=
  c = '\n' || c = '\r' || c = Char.ofNat 0x0B || c = Char.ofNat 0x0C ||
  c = Char.ofNat 0x1C || c = Char.ofNat 0x1D || c = Char.ofNat 0x1E ||
  c = Char.ofNat 0x85 || c = Char.ofNat 0x2028 || c = Char.ofNat 0x2029

/-- Model of `str.splitlines()` (universal newlines, `keepends=False`):
every boundary terminates a line, `\r\n` counts as one boundary, and a
trailing segment is kept only when non-empty. -/
def pySplitlines : List Char → List (List Char)
  | [] => []
  | '\r' :: '\n' :: rest => [] :: pySplitlines rest
  | c :: rest =>
    if isLineBoundary c then [] :: pySplitlines rest
    else
      match pySplitlines rest with
      | [] => [[c]]
      | l :: ls => (c :: l) :: ls

/-- One decoded line of the streaming `aiter_lines` loop:
`raw.decode("utf-8", errors="replace").rstrip("\r")`. -/
def lineDecode (raw : List Byte) : List Char :=
  rstripCR (decodeUtf8Replace raw)

/-- The final `if buf: yield buf.decode(...).rstrip("\r")` flush of the
streaming `aiter_lines` loop. -/
def flushRem (rem : List Byte) : List (List Char) :=
  if rem = [] then [] else [lineDecode rem]

/-- The streaming branch of `_AiohttpResponse.aiter_lines`, as a function
from the chunk sequence the engine delivers to the lines yielded: empty
chunks are skipped (`if not chunk: continue`), each chunk is appended to
the carry buffer, complete lines are drained (`while b"\n" in buf`), and a
non-empty final buffer is flushed. -/
def streamLinesAux (buf : List Byte) : List (List Byte) → List (List Char)
  | [] => flushRem buf
  | c :: cs =>
    if c = [] then streamLinesAux buf cs
    else
      let p := splitNL (buf ++ c)
      p.1.map lineDecode ++ streamLinesAux p.2 cs

/-- Lines yielded by the streaming branch of `aiter_lines`, starting from
the empty carry buffer `buf = b""`. -/
def streamLines (chunks : List (List Byte)) : List (List Char) :=
  streamLinesAux [] chunks

/-- Whole-body line splitting as the amended claim words it: split the
byte body on line-feed, decode each segment as UTF-8 with replacement,
strip all trailing carriage returns, and flush a non-empty remainder as a
final line. -/
def specStreamLines (body : List Byte) : List (List Char) :=
  (splitNL body).1.map lineDecode ++ flushRem (splitNL body).2

/-- `str.rstrip` limited to a single character, as claim C5 words it:
strip at most one trailing carriage return. -/
def stripOneCR (s : List Char) : List Char :=
  if s.getLast? = some '\r' then s.dropLast else s

/-- Claim C5 as stated: for every Response state, lines are obtained by
splitting the body on line-feed, stripping one trailing carriage return
from each decoded line, and flushing any remaining partial line. -/
def claimLinesAsStated (body : List Byte) : List (List Char) :=
  (splitNL body).1.map (fun seg => stripOneCR (decodeUtf8Replace seg)) ++
    (if (splitNL body).2 = [] then []
     else [stripOneCR (decodeUtf8Replace (splitNL body).2)])

example : decodeUtf8Replace [97, 98, 10] = ['a', 'b', '\n'] := by decide
example : pySplitlines ['a', '\n', 'b'] = [['a'], ['b']] := by decide
example : pySplitlines ['a', '\r', '\n', 'b', '\r', '\n'] = [['a'], ['b']] := by decide
example : pySplitlines ['a', '\r', 'b'] = [['a'], ['b']] := by decide
example : splitNL [97, 10, 98, 10, 99] = ([[97], [98]], [99]) := by decide
example : rstripCR ['a', '\r', '\r'] = ['a'] := by decide

/-- A buffer containing no newline byte splits into no complete line and
itself as remainder. -/
theorem splitNL_noNL (l : List Byte) (h : 10 ∉ l) : splitNL l = ([], l) := by
  induction l with
  | nil => rfl
  | cons b rest ih =>
    have hb : b ≠ 10 := fun e => h (e ▸ List.mem_cons_self b rest)
    have hr : (10 : Byte) ∉ rest := fun m => h (List.mem_cons_of_mem _ m)
    simp [splitNL, hb, ih hr]

/-- The remainder component of `splitNL` never contains a newline byte. -/
theorem splitNL_snd_noNL (l : List Byte) : 10 ∉ (splitNL l).2 := by
  induction l with
  | nil => simp [splitNL]
  | cons b rest ih =>
    by_cases hb : b = 10
    · simpa [splitNL, hb] using ih
    · cases h : (splitNL rest).1 with
      | nil =>
        simp only [splitNL, if_neg hb, h]
        intro hm
        rcases List.mem_cons.mp hm with h10 | h10
        · exact hb h10.symm
        · exact ih h10
      | cons l ls => simpa [splitNL, hb, h] using ih

theorem splitNL_cons_nl (rest : List Byte) :
    splitNL (10 :: rest) = ([] :: (splitNL rest).1, (splitNL rest).2) := by
  simp [splitNL]

theorem splitNL_cons (b : Byte) (rest : List Byte) (hb : b ≠ 10) :
    splitNL (b :: rest) =
      (match (splitNL rest).1 with
       | [] => ([], b :: (splitNL rest).2)
       | l :: ls => ((b :: l) :: ls, (splitNL rest).2)) := by
  simp [splitNL, hb]

/-- Draining a concatenation: the complete lines of `u ++ r` are the
complete lines of `u` followed by the complete lines of the remainder of
`u` prepended to `r`, and the remainders agree. -/
theorem splitNL_append (u r : List Byte) :
    splitNL (u ++ r) =
      ((splitNL u).1 ++ (splitNL ((splitNL u).2 ++ r)).1,
       (splitNL ((splitNL u).2 ++ r)).2) := by
  induction u with
  | nil => simp [splitNL]
  | cons b u' ih =>
    by_cases hb : b = 10
    · subst hb
      rw [List.cons_append, splitNL_cons_nl (u' ++ r), splitNL_cons_nl u', ih]
      simp
    · rw [List.cons_append, splitNL_cons b (u' ++ r) hb, splitNL_cons b u' hb, ih]
      cases hu : (splitNL u').1 with
      | nil =>
        cases hy : (splitNL ((splitNL u').2 ++ r)).1 with
        | nil =>
          simp only [hu, hy, List.nil_append]
          rw [List.cons_append, splitNL_cons b ((splitNL u').2 ++ r) hb, hy]
        | cons l ls =>
          simp only [hu, hy, List.nil_append]
          rw [List.cons_append, splitNL_cons b ((splitNL u').2 ++ r) hb, hy]
      | cons l0 ls0 =>
        simp [hu]

/-- Whole-body line splitting decomposes across an append: the lines of
`u ++ r` are the complete lines of `u` followed by the lines of the
leftover of `u` joined with `r`. -/
theorem specStreamLines_append (u r : List Byte) :
    specStreamLines (u ++ r) =
      (splitNL u).1.map lineDecode ++ specStreamLines ((splitNL u).2 ++ r) := by
  simp [specStreamLines, splitNL_append u r]

/-- The incremental streaming loop computes whole-body line splitting:
for any newline-free carry buffer, running the loop over the chunk list
equals splitting the concatenation. -/
theorem streamLinesAux_eq (cs : List (List Byte)) :
    ∀ buf : List Byte, 10 ∉ buf →
      streamLinesAux buf cs = specStreamLines (buf ++ cs.flatten) := by
  induction cs with
  | nil =>
    intro buf hbuf
    simp [streamLinesAux, specStreamLines, splitNL_noNL buf hbuf, flushRem]
  | cons c cs ih =>
    intro buf hbuf
    by_cases hc : c = []
    · subst hc
      simpa [streamLinesAux] using ih buf hbuf
    · have hrem := splitNL_snd_noNL (buf ++ c)
      calc streamLinesAux buf (c :: cs)
          = (splitNL (buf ++ c)).1.map lineDecode ++
              streamLinesAux (splitNL (buf ++ c)).2 cs := by
            simp [streamLinesAux, hc]
        _ = (splitNL (buf ++ c)).1.map lineDecode ++
              specStreamLines ((splitNL (buf ++ c)).2 ++ cs.flatten) := by
            rw [ih _ hrem]
        _ = specStreamLines ((buf ++ c) ++ cs.flatten) := by
            rw [specStreamLines_append (buf ++ c) cs.flatten]
        _ = specStreamLines (buf ++ (c :: cs).flatten) := by
            simp

/-- From the empty initial buffer the streaming loop equals whole-body
splitting of the concatenated chunks. -/
theorem streamLines_eq_spec (chunks : List (List Byte)) :
    streamLines chunks = specStreamLines chunks.flatten := by
  simpa [streamLines] using streamLinesAux_eq chunks [] (by simp)

/-! ### Python scalar values

`_to_timeout` and `_ssl_for_verify` receive arbitrary Python values; the
relevant universe here is `None`, booleans, integers and strings. -/

/-- A Python scalar value, as passed for `timeout` and `verify`. -/
inductive PyVal where
  | pyNone
  | pyBool (b : Bool)
  | pyInt (n : Int)
  | pyStr (s : String)
deriving DecidableEq, Repr

/-- Python `==` on the modelled scalars: booleans compare numerically
equal to integers (`False == 0`, `True == 1`); `None` and strings only
compare equal to themselves. -/
def pyEqual : PyVal → PyVal → Bool
  | .pyNone, .pyNone => true
  | .pyBool a, .pyBool b => a == b
  | .pyBool a, .pyInt n => (if a then (1 : Int) else 0) == n
  | .pyInt n, .pyBool a => n == (if a then (1 : Int) else 0)
  | .pyInt m, .pyInt n => m == n
  | .pyStr s, .pyStr t => s == t
  | _, _ => false

/-! ### `float(...)` conversion and `_to_timeout` -/

/-- The result of a successful Python `float(...)` conversion. -/
inductive PyFloat where
  | finite (q : ℚ)
  | inf (neg : Bool)
  | nan
deriving DecidableEq, Repr

/-- Whitespace characters stripped by `float(str)`. -/
def isPyWs (c : Char) : Bool :=
  c = ' ' || c = '\t' || c = '\n' || c = '\x0d' ||
  c = Char.ofNat 0x0B || c = Char.ofNat 0x0C

/-- After an initial digit, consume further digits, allowing a single
underscore between two digits (Python numeric-literal underscores).
Returns the accumulated value, the digit count, and the unconsumed rest
(a leftover `_` not followed by a digit stays in the rest, making the
overall conversion fail on the trailing-junk check). -/
def moreDigits : List Char → Nat → Nat → Nat × Nat × List Char
  | [], acc, n => (acc, n, [])
  | c :: rest, acc, n =>
    if c.isDigit then moreDigits rest (acc * 10 + (c.toNat - 48)) (n + 1)
    else if c = '_' then
      match rest with
      | d :: rest2 =>
        if d.isDigit then moreDigits rest2 (acc * 10 + (d.toNat - 48)) (n + 1)
        else (acc, n, c :: rest)
      | [] => (acc, n, c :: rest)
    else (acc, n, c :: rest)

/-- Parse a non-empty digit sequence (with embedded underscores);
`none` when the input does not start with a digit. -/
def parseDigitSeq : List Char → Option (Nat × Nat × List Char)
  | [] => none
  | c :: rest =>
    if c.isDigit then some (moreDigits rest (c.toNat - 48) 1) else none

/-- Parse the optional exponent suffix and require the input to be fully
consumed: `[e [sign] digits]`.  Returns the signed exponent. -/
def parseExpTail (s : List Char) : Option Int :=
  match s with
  | [] => some 0
  | 'e' :: r =>
    let (neg, r2) : Bool × List Char :=
      match r with
      | '+' :: r' => (false, r')
      | '-' :: r' => (true, r')
      | _ => (false, r)
    match parseDigitSeq r2 with
    | some (e, _, []) => some (if neg then -(e : Int) else (e : Int))
    | _ => none
  | _ => none

/-- The rational `(ip + fp / 10 ^ fn) * 10 ^ e`, built with `mkRat` so
that it evaluates by kernel reduction. -/
def ratOfParts (ip fp fn : Nat) (e : Int) : ℚ :=
  let num : Int := (ip * 10 ^ fn + fp : Nat)
  match e with
  | .ofNat k => mkRat (num * (10 : Int) ^ k) (10 ^ fn)
  | .negSucc k => mkRat num (10 ^ fn * 10 ^ (k + 1))

/-- Mantissa of the form `digits [. [digits]] | . digits`, then exponent.
Input is already sign-stripped and lower-cased. -/
def parseMantissa (s : List Char) : Option ℚ :=
  match parseDigitSeq s with
  | some (ip, _, rest) =>
    match rest with
    | '.' :: rest2 =>
      match parseDigitSeq rest2 with
      | some (fp, fn, rest3) =>
        (parseExpTail rest3).map fun e => ratOfParts ip fp fn e
      | none =>
        (parseExpTail rest2).map fun e => ratOfParts ip 0 0 e
    | _ => (parseExpTail rest).map fun e => ratOfParts ip 0 0 e
  | none =>
    match s with
    | '.' :: rest2 =>
      match parseDigitSeq rest2 with
      | some (fp, fn, rest3) =>
        (parseExpTail rest3).map fun e => ratOfParts 0 fp fn e
      | _ => none
    | _ => none

/-- Model of Python `float(str)` on the ASCII fragment: strips
whitespace, handles an optional sign, the words `inf`/`infinity`/`nan`
(case-insensitively), and decimal literals with optional fraction,
exponent and digit-group underscores.  `none` models a raised
`ValueError`. -/
def pyFloatOfStr (s : List Char) : Option PyFloat :=
  let t := (s.dropWhile isPyWs).reverse.dropWhile isPyWs |>.reverse
  let (neg, t2) : Bool × List Char :=
    match t with
    | '+' :: r => (false, r)
    | '-' :: r => (true, r)
    | _ => (false, t)
  let low := t2.map Char.toLower
  if low = ['i', 'n', 'f'] then some (.inf neg)
  else if low = ['i', 'n', 'f', 'i', 'n', 'i', 't', 'y'] then some (.inf neg)
  else if low = ['n', 'a', 'n'] then some .nan
  else
    (parseMantissa low).map fun q => .finite (if neg then -q else q)

/-- Model of `float(value)` on the modelled scalar universe: `None` is
not convertible (`TypeError`), booleans and integers convert exactly,
strings go through `pyFloatOfStr`. -/
def pyFloat : PyVal → Option PyFloat
  | .pyNone => none
  | .pyBool b => some (.finite (if b then 1 else 0))
  | .pyInt n => some (.finite (n : ℚ))
  | .pyStr s => pyFloatOfStr s.data

/-- `_to_timeout`: `None` maps to `None`; otherwise `float(value)` is
attempted and any conversion failure is swallowed to `None`. -/
def to_timeout : PyVal → Option PyFloat
  | .pyNone => none
  | v => pyFloat v

example : to_timeout (.pyStr "1.5") = some (.finite (mkRat 3 2)) := by decide
example : to_timeout (.pyStr "abc") = none := by decide
example : to_timeout (.pyStr "") = none := by decide
example : to_timeout (.pyInt 3) = some (.finite 3) := by decide
example : to_timeout .pyNone = none := rfl

/-! ### `_ssl_for_verify` -/

/-- Result of `_ssl_for_verify`: either the literal `False`
(verification disabled) or an `ssl.SSLContext` built by
`ssl.create_default_context()` with `certifi.where()` loaded (a verified
context from the process trust store). -/
inductive SslResult where
  | disabled
  | verifiedContext
deriving DecidableEq, Repr

/-- The tuple of explicit falsy tokens in
`verify in (False, 0, "0", "false", "False", "no", "off")`. -/
def falsyTokens : List PyVal :=
  [.pyBool false, .pyInt 0, .pyStr "0", .pyStr "false", .pyStr "False",
   .pyStr "no", .pyStr "off"]

/-- `_ssl_for_verify`: membership in the falsy-token tuple (Python `in`,
i.e. `==` against each element) disables verification; anything else
yields the verified context. -/
def ssl_for_verify (verify : PyVal) : SslResult :=
  if falsyTokens.any (fun t => pyEqual verify t) then .disabled
  else .verifiedContext

example : ssl_for_verify (.pyBool true) = .verifiedContext := by decide
example : ssl_for_verify (.pyBool false) = .disabled := by decide
example : ssl_for_verify (.pyStr "off") = .disabled := by decide
example : ssl_for_verify (.pyStr "OFF") = .verifiedContext := by decide

/-! ### String dicts

Python `dict[str, str]` modelled as an insertion-ordered association
list: `get` finds the first matching key, assignment overwrites in place
or appends, `update` folds assignment over the other dict's items. -/

/-- A Python `dict[str, str]` (insertion-ordered, unique keys). -/
abbrev StrDict := List (String × String)

/-- `d.get(k)`. -/
def dictGet (d : StrDict) (k : String) : Option String :=
  (d.find? (fun p => p.1 = k)).map (·.2)

/-- `d[k] = v`: overwrite in place when the key exists (at its original
position), append at the end otherwise. -/
def dictSet : StrDict → String → String → StrDict
  | [], k, v => [(k, v)]
  | p :: d, k, v => if p.1 = k then (k, v) :: d else p :: dictSet d k v

/-- `d.update(e)`. -/
def dictUpdate (d e : StrDict) : StrDict :=
  e.foldl (fun acc kv => dictSet acc kv.1 kv.2) d

/-- The keys of `d`. -/
def dictKeys (d : StrDict) : List String := d.map (·.1)

theorem dictGet_dictSet (d : StrDict) (k v k' : String) :
    dictGet (dictSet d k v) k' = if k' = k then some v else dictGet d k' := by
  induction d with
  | nil =>
    by_cases h : k' = k
    · simp [dictSet, dictGet, List.find?, h]
    · have h2 : ¬(k = k') := fun e => h e.symm
      simp [dictSet, dictGet, List.find?, h, h2]
  | cons p d ih =>
    by_cases hp : p.1 = k
    · by_cases h : k' = k
      · subst h
        simp [dictSet, dictGet, List.find?, hp]
      · have h2 : ¬(k = k') := fun e => h e.symm
        have hp' : ¬(p.1 = k') := fun e => h2 (hp.symm.trans e)
        simp [dictSet, dictGet, List.find?, hp, h2, hp', h]
    · by_cases hk' : p.1 = k'
      · have hne : ¬(k' = k) := fun e => hp (hk'.trans e)
        simp [dictSet, dictGet, List.find?, hp, hk', hne]
      · simp only [dictSet, if_neg hp]
        simp only [dictGet, List.find?] at ih ⊢
        simp [hk', ih]

theorem dictKeys_dictSet (d : StrDict) (k v : String) :
    dictKeys (dictSet d k v) = dictKeys d ∨
      dictKeys (dictSet d k v) = dictKeys d ++ [k] := by
  induction d with
  | nil => right; simp [dictSet, dictKeys]
  | cons p d ih =>
    by_cases hp : p.1 = k
    · left; simp [dictSet, dictKeys, hp]
    · rcases ih with h | h
      · left; simp [dictSet, dictKeys, hp] at *; exact h
      · right; simp [dictSet, dictKeys, hp] at *; exact h

theorem dictGet_eq_none_of_nmem (d : StrDict) (k : String)
    (h : k ∉ dictKeys d) : dictGet d k = none := by
  induction d with
  | nil => rfl
  | cons p d ih =>
    have hp : ¬(p.1 = k) := fun e => h (by simp [dictKeys, e])
    have hd : k ∉ dictKeys d := fun m => h (by simp [dictKeys] at *; tauto)
    simp [dictGet, List.find?, hp] at *
    exact ih hd

/-- `update` looks like right-biased union on lookups, provided the
overlay has no duplicate keys (always true of a Python dict). -/
theorem dictGet_dictUpdate (e : StrDict) (h : (dictKeys e).Nodup) :
    ∀ (d : StrDict) (k : String),
      dictGet (dictUpdate d e) k =
        match dictGet e k with
        | some v => some v
        | none => dictGet d k := by
  induction e with
  | nil => intro d k; rfl
  | cons kv e ih =>
    intro d k
    have h' : kv.1 ∉ dictKeys e ∧ (dictKeys e).Nodup :=
      List.nodup_cons.mp (show (kv.1 :: dictKeys e).Nodup from h)
    have step : dictUpdate d (kv :: e) = dictUpdate (dictSet d kv.1 kv.2) e := rfl
    rw [step, ih h'.2]
    by_cases hk : kv.1 = k
    · subst hk
      have h1 : dictGet e kv.1 = none := dictGet_eq_none_of_nmem e kv.1 h'.1
      have h2 : dictGet (kv :: e) kv.1 = some kv.2 := by
        simp [dictGet, List.find?]
      rw [h1, h2]
      simp [dictGet_dictSet]
    · have hk2 : ¬(k = kv.1) := fun e2 => hk e2.symm
      have h2 : dictGet (kv :: e) k = dictGet e k := by
        simp [dictGet, List.find?, hk]
      rw [h2]
      cases he : dictGet e k with
      | some v => simp
      | none => simp [dictGet_dictSet, hk2]

/-- The invariant claimed of every ProxyMap the program produces. -/
def keysOk (d : StrDict) : Prop :=
  ∀ p ∈ d, p.1 = "http" ∨ p.1 = "https"

theorem keysOk_dictSet (d : StrDict) (k v : String)
    (hd : keysOk d) (hk : k = "http" ∨ k = "https") :
    keysOk (dictSet d k v) := by
  induction d with
  | nil => intro p hp; simp [dictSet] at hp; subst hp; exact hk
  | cons q d ih =>
    by_cases hq : q.1 = k
    · intro p hp
      simp [dictSet, hq] at hp
      rcases hp with h | h
      · subst h; exact hk
      · exact hd p (List.mem_cons_of_mem _ h)
    · intro p hp
      simp [dictSet, hq] at hp
      rcases hp with h | h
      · rw [h]; exact hd q (List.mem_cons_self q d)
      · exact ih (fun r hr => hd r (List.mem_cons_of_mem _ hr)) p h

theorem keysOk_dictUpdate (e : StrDict) (he : keysOk e) :
    ∀ d : StrDict, keysOk d → keysOk (dictUpdate d e) := by
  induction e with
  | nil => intro d hd; exact hd
  | cons kv e ih =>
    intro d hd
    have step : dictUpdate d (kv :: e) = dictUpdate (dictSet d kv.1 kv.2) e := rfl
    rw [step]
    exact ih (fun p hp => he p (List.mem_cons_of_mem _ hp))
      _ (keysOk_dictSet d kv.1 kv.2 hd (he kv (List.mem_cons_self kv e)))

/-! ### `_normalize_proxies` and the effective proxy map -/

/-- A Python value passed as `proxies`/`proxy` configuration: `None`, a
string, a mapping (with string keys and values), or any other object. -/
inductive ProxVal where
  | pyNone
  | str (s : String)
  | dict (es : StrDict)
  | other
deriving DecidableEq, Repr

/-- `str.lower()` (ASCII fragment). -/
def pyLower (s : String) : String := ⟨s.data.map Char.toLower⟩

/-- `_normalize_proxies`: falsy input gives `None`; a dict keeps only
the lower-cased `http`/`https` keys with truthy values (`None` when
nothing remains); a string covers both schemes; anything else is
`None`. -/
def normalize_proxies : ProxVal → Option StrDict
  | .pyNone => none
  | .str s => if s = "" then none else some [("http", s), ("https", s)]
  | .dict es =>
    if es = [] then none
    else
      let out := es.foldl (fun acc kv =>
        if kv.2 = "" then acc
        else
          let k := pyLower kv.1
          if k = "http" ∨ k = "https" then dictSet acc k kv.2 else acc) []
      if out = [] then none else some out
  | .other => none

/-- The session-default proxy map built in `_AiohttpAsyncSession.__init__`
(lines 185-190): normalize the `proxies` kwarg, then let a truthy
singular `proxy` overwrite both scheme keys. -/
def sessionDefaultProxies (proxy : Option String) (proxies : ProxVal) :
    Option StrDict :=
  let pm := normalize_proxies proxies
  match proxy with
  | some p =>
    if p = "" then pm
    else some (dictSet (dictSet (pm.getD []) "http" p) "https" p)
  | none => pm

/-- The per-request effective proxy map built in
`_AiohttpAsyncSession.request` (lines 214-220): copy the session default
(or empty), `update` with the normalized per-call `proxies` when truthy,
then let a truthy per-call singular `proxy` overwrite both scheme keys. -/
def buildProxyMap (sessionDefault : Option StrDict) (proxies : ProxVal)
    (proxy : Option String) : StrDict :=
  let m := sessionDefault.getD []
  let m2 := match normalize_proxies proxies with
    | some e => if e = [] then m else dictUpdate m e
    | none => m
  match proxy with
  | some p => if p = "" then m2 else dictSet (dictSet m2 "http" p) "https" p
  | none => m2

/-- Valid characters of a URL scheme after the first. -/
def isSchemeChar (c : Char) : Bool :=
  c.isAlphanum || c = '+' || c = '-' || c = '.'

/-- Is `cs` a well-formed scheme (letter first, scheme chars after)? -/
def schemeValid : List Char → Bool
  | [] => false
  | c :: rest => c.isAlpha && rest.all isSchemeChar

/-- `urlparse(url).scheme`: the lower-cased text before the first colon,
when that prefix is a well-formed scheme; otherwise the empty string. -/
def url_scheme (url : String) : String :=
  let cs := url.data
  let before := cs.takeWhile (fun c => c != ':')
  if before.length < cs.length && schemeValid before then
    ⟨before.map Char.toLower⟩
  else ""

/-- Python `x or y` where `x` is a string-or-`None`: the first operand
wins unless it is falsy (`None` or the empty string). -/
def orStr : Option String → Option String → Option String
  | some s, alt => if s = "" then alt else some s
  | none, alt => alt

/-- `_pick_proxy`: `None` for a falsy map; otherwise look up the URL
scheme (defaulting to `https`, lower-cased), falling back to the
`https` then `http` entries via Python `or` chaining. -/
def pick_proxy (url : String) (proxies : Option StrDict) : Option String :=
  match proxies with
  | none => none
  | some d =>
    if d = [] then none
    else
      let s := url_scheme url
      let scheme := pyLower (if s = "" then "https" else s)
      orStr (dictGet d scheme) (orStr (dictGet d "https") (dictGet d "http"))

/-- Claim C8's description of `pick`: `map[scheme]`, else
`map["https"]`, else `map["http"]`, else `None`, with `scheme` the
lower-cased URL scheme defaulting to `https`. -/
def pickProxySpec (url : String) (d : StrDict) : Option String :=
  let s := url_scheme url
  let scheme := pyLower (if s = "" then "https" else s)
  ((dictGet d scheme).orElse fun _ => dictGet d "https").orElse fun _ =>
    dictGet d "http"

example : url_scheme "http://host" = "http" := by decide
example : url_scheme "HTTPS://host" = "https" := by decide
example : url_scheme "no-colon-here" = "" := by decide
example : url_scheme "1ttp://host" = "" := by decide
example : pick_proxy "http://host" (some [("https", "P1")]) = some "P1" := by
  decide
example : normalize_proxies (.dict [("FTP", "x"), ("HTTP", "p"), ("https", "")])
    = some [("http", "p")] := by decide
example : sessionDefaultProxies (some "q") (.str "p")
    = some [("http", "q"), ("https", "q")] := by decide

/-! ### The response wrapper `_AiohttpResponse` -/

/-- Observable state of an `_AiohttpResponse` together with its engine
resources.  `body = none` is the unread (live-stream) state; `body = some
bs` is the materialized state.  `streamChunks` is the chunk sequence the
live `response.content` would deliver.  `releaseCount` counts calls to
`self._response.release()` issued by this wrapper, and `ownedCloseCount`
counts calls to `self._owned_session.close()`. -/
structure AResp where
  statusCode : Nat
  body : Option (List Byte)
  streamChunks : List (List Byte)
  closed : Bool
  releaseCount : Nat
  ownedPresent : Bool
  ownedClosed : Bool
  ownedCloseCount : Nat
deriving DecidableEq, Repr

/-- `_AiohttpResponse.close` (lines 151-164): a no-op when already
closed; otherwise mark closed, release the engine handle, and close the
owned temporary session when one exists and is not yet closed.  All
failures inside are swallowed, so the operation is total. -/
def closeResp (r : AResp) : AResp :=
  if r.closed then r
  else
    let r1 := { r with closed := true, releaseCount := r.releaseCount + 1 }
    if r1.ownedPresent && !r1.ownedClosed then
      { r1 with ownedClosed := true, ownedCloseCount := r1.ownedCloseCount + 1 }
    else r1

/-- `__aexit__` delegates to `close`. -/
def aexitResp (r : AResp) : AResp := closeResp r

/-- Result of `_AiohttpResponse.json` (lines 108-115). -/
inductive JsonOutcome where
  /-- The `RuntimeError` raised when the body is not materialized. -/
  | usageError (msg : String)
  /-- `return {}` for a falsy (empty) materialized body. -/
  | emptyMapping
  /-- `json.loads` applied to the UTF-8-decoded (replacement) body. -/
  | parsed (decoded : List Char)
deriving DecidableEq, Repr

/-- `_AiohttpResponse.json`: raise on an unmaterialized body, return an
empty mapping for an empty body, otherwise hand the decoded body to the
JSON parser. -/
def jsonResp (r : AResp) : JsonOutcome :=
  match r.body with
  | none => .usageError "JSON body not available yet. Read stream content first."
  | some bs =>
    if bs = [] then .emptyMapping
    else .parsed (decodeUtf8Replace bs)

/-- The lines yielded by `_AiohttpResponse.aiter_lines` (lines 130-149):
`text.splitlines()` of the decoded buffer when materialized, else the
incremental newline-splitting loop over the live chunk stream. -/
def aiterLines (r : AResp) : List (List Char) :=
  match r.body with
  | some bs => pySplitlines (decodeUtf8Replace bs)
  | none => streamLines r.streamChunks

/-- An unread (streaming) response over the given live chunk stream. -/
def mkUnread (status : Nat) (chunks : List (List Byte)) (owned : Bool) : AResp :=
  { statusCode := status, body := none, streamChunks := chunks,
    closed := false, releaseCount := 0, ownedPresent := owned,
    ownedClosed := false, ownedCloseCount := 0 }

/-- A freshly materialized response (body fully read), before the
`wrapped.close()` the request path performs. -/
def mkMaterialized (status : Nat) (bs : List Byte) (owned : Bool) : AResp :=
  { statusCode := status, body := some bs, streamChunks := [],
    closed := false, releaseCount := 0, ownedPresent := owned,
    ownedClosed := false, ownedCloseCount := 0 }

/-! ### `_AiohttpAsyncSession.request` -/

/-- Per-call options popped from `kwargs` in `request`, with the same
defaults the source uses. -/
structure CallOpts where
  stream : Bool := false
  allowRedirects : Bool := true
  timeout : PyVal := .pyNone
  verify : Option PyVal := none
  proxy : Option String := none
  proxies : ProxVal := .pyNone
deriving Repr

/-- The configuration the fallback session carries into each request:
its default proxy map (`self._default_proxies`). -/
structure SessionCfg where
  defaultProxies : Option StrDict := none
deriving Repr

/-- The effective proxy URL for a request: the effective proxy map
resolved against the URL by `_pick_proxy`. -/
def effectiveProxyUrl (s : SessionCfg) (url : String) (o : CallOpts) :
    Option String :=
  pick_proxy url (some (buildProxyMap s.defaultProxies o.proxies o.proxy))

/-- Does the resolved proxy URL trigger the SOCKS path
(`bool(proxy_url) and proxy_url.lower().startswith("socks")`)? -/
def usesSocks (proxyUrl : Option String) : Bool :=
  match proxyUrl with
  | none => false
  | some p => p ≠ "" && ("socks".data).isPrefixOf (p.data.map Char.toLower)

/-- The dispatch decision `request` reaches before touching the engine. -/
inductive RequestPlan where
  /-- `raise RequestsError(...)` before the `try` block: no dispatch. -/
  | configError (msg : String)
  /-- Dispatch on a temporary SOCKS-connector session. -/
  | dispatchTemp (proxyUrl : String) (timeout : Option PyFloat)
      (ssl : Option SslResult) (allowRedirects stream : Bool)
  /-- Dispatch on the persistent session with an optional proxy. -/
  | dispatchMain (proxyUrl : Option String) (timeout : Option PyFloat)
      (ssl : Option SslResult) (allowRedirects stream : Bool)
deriving DecidableEq, Repr

/-- The pure pre-dispatch part of `request` (lines 203-243): resolve
timeout, verify and the effective proxy, then decide between the
configuration error (SOCKS requested without `aiohttp_socks`), the
temporary-session SOCKS dispatch, and the main-session dispatch.
`socksAvailable` models `ProxyConnector is not None`. -/
def planRequest (socksAvailable : Bool) (s : SessionCfg) (url : String)
    (o : CallOpts) : RequestPlan :=
  let timeout := to_timeout o.timeout
  let ssl := o.verify.map ssl_for_verify
  let proxyUrl := effectiveProxyUrl s url o
  if usesSocks proxyUrl then
    if socksAvailable then
      .dispatchTemp (proxyUrl.getD "") timeout ssl o.allowRedirects o.stream
    else
      .configError "SOCKS proxy requested but aiohttp-socks is not installed"
  else
    .dispatchMain proxyUrl timeout ssl o.allowRedirects o.stream

/-- An exception raised by the underlying engine during dispatch. -/
inductive EngineExc where
  /-- An `aiohttp.ClientError` with message `msg`. -/
  | clientError (msg : String)
  /-- An `asyncio.TimeoutError` with message `msg`. -/
  | timeoutError (msg : String)
  /-- Any other exception type (`tag` names the type). -/
  | other (tag msg : String)
deriving DecidableEq, Repr

/-- Behaviour of the engine for one dispatched request. -/
inductive EngineOutcome where
  | success (status : Nat) (chunks : List (List Byte))
  | raise (e : EngineExc)
deriving DecidableEq, Repr

/-- What `request` is observed to do. -/
inductive RequestResult where
  | ok (resp : AResp)
  /-- A raised `RequestsError` carrying `msg`. -/
  | raisedRequestsError (msg : String)
  /-- An engine exception propagated unchanged. -/
  | raisedOther (tag msg : String)
deriving DecidableEq, Repr

/-- `str(e)` of an engine exception: its message. -/
def excMessage : EngineExc → String
  | .clientError m => m
  | .timeoutError m => m
  | .other _ m => m

/-- `request` end to end, given the engine's behaviour.  Returns the
observable result together with the number of dispatches to the engine
(`0` or `1`), which is what a spy transport would count.  The
`except (aiohttp.ClientError, asyncio.TimeoutError)` clause maps those
two kinds to `RequestsError(str(e))`; other exceptions propagate. -/
def runRequest (socksAvailable : Bool) (s : SessionCfg) (url : String)
    (o : CallOpts) (eng : EngineOutcome) : RequestResult × Nat :=
  match planRequest socksAvailable s url o with
  | .configError m => (.raisedRequestsError m, 0)
  | .dispatchTemp _ _ _ _ stream =>
    match eng with
    | .raise (.clientError m) => (.raisedRequestsError m, 1)
    | .raise (.timeoutError m) => (.raisedRequestsError m, 1)
    | .raise (.other t m) => (.raisedOther t m, 1)
    | .success st chunks =>
      if stream then (.ok (mkUnread st chunks true), 1)
      else (.ok (closeResp (mkMaterialized st chunks.flatten true)), 1)
  | .dispatchMain _ _ _ _ stream =>
    match eng with
    | .raise (.clientError m) => (.raisedRequestsError m, 1)
    | .raise (.timeoutError m) => (.raisedRequestsError m, 1)
    | .raise (.other t m) => (.raisedOther t m, 1)
    | .success st chunks =>
      if stream then (.ok (mkUnread st chunks false), 1)
      else (.ok (closeResp (mkMaterialized st chunks.flatten false)), 1)

example :
    planRequest false {} "http://x" { proxy := some "socks5://h" } =
      .configError "SOCKS proxy requested but aiohttp-socks is not installed" := by
  decide
example :
    planRequest true {} "http://x" { proxy := some "socks5://h" } =
      .dispatchTemp "socks5://h" none none true false := by decide
example :
    planRequest false {} "http://x" { proxy := some "http://h" } =
      .dispatchMain (some "http://h") none none true false := by decide

/-! ### Helper lemmas -/

theorem closeResp_closed (r : AResp) : (closeResp r).closed = true := by
  unfold closeResp
  by_cases h : r.closed
  · simpa [h] using h
  · by_cases h2 : r.ownedPresent && !r.ownedClosed <;> simp [h, h2]

theorem closeResp_of_closed (r : AResp) (h : r.closed = true) :
    closeResp r = r := by
  simp [closeResp, h]

theorem closeResp_closeResp (r : AResp) :
    closeResp (closeResp r) = closeResp r :=
  closeResp_of_closed _ (closeResp_closed r)

theorem closeResp_iterate (r : AResp) (n : Nat) (hn : 1 ≤ n) :
    closeResp^[n] r = closeResp r := by
  induction n with
  | zero => omega
  | succ m ih =>
    rcases Nat.eq_or_lt_of_le hn with h | h
    · rw [← h]; simp
    · have hm : 1 ≤ m := by omega
      rw [Function.iterate_succ_apply', ih hm, closeResp_closeResp]

theorem closeResp_releaseCount (r : AResp) :
    (closeResp r).releaseCount ≤ r.releaseCount + 1 := by
  unfold closeResp
  by_cases h : r.closed
  · simp [h]
  · by_cases h2 : r.ownedPresent && !r.ownedClosed <;> simp [h, h2]

theorem closeResp_ownedCloseCount (r : AResp) :
    (closeResp r).ownedCloseCount ≤ r.ownedCloseCount + 1 := by
  unfold closeResp
  by_cases h : r.closed
  · simp [h]
  · by_cases h2 : r.ownedPresent && !r.ownedClosed <;> simp [h, h2]

theorem mem_dictKeys_dictSet (d : StrDict) (k v k' : String)
    (h : k' ∈ dictKeys (dictSet d k v)) : k' ∈ dictKeys d ∨ k' = k := by
  induction d with
  | nil =>
    right
    simpa [dictSet, dictKeys] using h
  | cons p d ih =>
    by_cases hp : p.1 = k
    · simp [dictSet, dictKeys, hp] at h
      rcases h with h | h
      · right; exact h
      · left; simp [dictKeys]; tauto
    · simp [dictSet, dictKeys, hp] at h
      rcases h with h | h
      · left; simp [dictKeys]; tauto
      · rcases ih (by simpa [dictKeys] using h) with h2 | h2
        · left; simp [dictKeys] at *; tauto
        · right; exact h2

theorem nodup_dictKeys_dictSet (d : StrDict) (k v : String)
    (h : (dictKeys d).Nodup) : (dictKeys (dictSet d k v)).Nodup := by
  induction d with
  | nil => simp [dictSet, dictKeys]
  | cons p d ih =>
    have h' : p.1 ∉ dictKeys d ∧ (dictKeys d).Nodup :=
      List.nodup_cons.mp (show (p.1 :: dictKeys d).Nodup from h)
    by_cases hp : p.1 = k
    · have : dictKeys (dictSet (p :: d) k v) = k :: dictKeys d := by
        simp [dictSet, dictKeys, hp]
      rw [this]
      exact List.nodup_cons.mpr ⟨hp ▸ h'.1, h'.2⟩
    · have : dictKeys (dictSet (p :: d) k v) = p.1 :: dictKeys (dictSet d k v) := by
        simp [dictSet, dictKeys, hp]
      rw [this]
      refine List.nodup_cons.mpr ⟨?_, ih h'.2⟩
      intro hm
      rcases mem_dictKeys_dictSet d k v p.1 hm with h2 | h2
      · exact h'.1 h2
      · exact hp h2

/-- The body of the dict-processing loop in `_normalize_proxies`. -/
def normStep (acc : StrDict) (kv : String × String) : StrDict :=
  if kv.2 = "" then acc
  else
    let k := pyLower kv.1
    if k = "http" ∨ k = "https" then dictSet acc k kv.2 else acc

theorem normalize_proxies_dict_eq (es : StrDict) :
    normalize_proxies (.dict es) =
      (if es = [] then none
       else if es.foldl normStep [] = [] then none
       else some (es.foldl normStep [])) := by
  simp only [normalize_proxies]
  rfl

theorem foldl_normStep_nodup (es : StrDict) :
    ∀ acc : StrDict, (dictKeys acc).Nodup →
      (dictKeys (es.foldl normStep acc)).Nodup := by
  induction es with
  | nil => intro acc h; exact h
  | cons kv es ih =>
    intro acc h
    rw [List.foldl_cons]
    apply ih
    unfold normStep
    by_cases h2 : kv.2 = ""
    · simpa [h2] using h
    · by_cases hk : pyLower kv.1 = "http" ∨ pyLower kv.1 = "https"
      · simpa [h2, hk] using nodup_dictKeys_dictSet acc (pyLower kv.1) kv.2 h
      · simpa [h2, hk] using h

theorem mem_dictSet (d : StrDict) (k v : String) (p : String × String)
    (h : p ∈ dictSet d k v) : p ∈ d ∨ p = (k, v) := by
  induction d with
  | nil => right; simpa [dictSet] using h
  | cons q d ih =>
    by_cases hq : q.1 = k
    · simp [dictSet, hq] at h
      rcases h with h | h
      · right; exact h
      · left; exact List.mem_cons_of_mem _ h
    · simp [dictSet, hq] at h
      rcases h with h | h
      · left; exact h ▸ List.mem_cons_self q d
      · rcases ih h with h2 | h2
        · left; exact List.mem_cons_of_mem _ h2
        · right; exact h2

theorem foldl_normStep_entries (es : StrDict) :
    ∀ acc : StrDict,
      (∀ p ∈ acc, (p.1 = "http" ∨ p.1 = "https") ∧ p.2 ≠ "") →
      ∀ p ∈ es.foldl normStep acc,
        (p.1 = "http" ∨ p.1 = "https") ∧ p.2 ≠ "" := by
  induction es with
  | nil => intro acc h; exact h
  | cons kv es ih =>
    intro acc hacc
    rw [List.foldl_cons]
    apply ih
    unfold normStep
    by_cases h2 : kv.2 = ""
    · simpa [h2] using hacc
    · by_cases hk : pyLower kv.1 = "http" ∨ pyLower kv.1 = "https"
      · simp only [h2, hk, if_neg, if_pos, ite_false, ite_true]
        intro p hp
        rcases mem_dictSet acc (pyLower kv.1) kv.2 p (by simpa [h2, hk] using hp)
          with h3 | h3
        · exact hacc p h3
        · subst h3; exact ⟨hk, h2⟩
      · simpa [h2, hk] using hacc

theorem length_dictSet (d : StrDict) (k v : String) :
    d.length ≤ (dictSet d k v).length := by
  induction d with
  | nil => simp [dictSet]
  | cons p d ih =>
    by_cases hp : p.1 = k <;> simp [dictSet, hp] <;> omega

theorem length_foldl_normStep (es : StrDict) :
    ∀ acc : StrDict, acc.length ≤ (es.foldl normStep acc).length := by
  induction es with
  | nil => intro acc; simp
  | cons kv es ih =>
    intro acc
    rw [List.foldl_cons]
    refine le_trans ?_ (ih (normStep acc kv))
    unfold normStep
    by_cases h2 : kv.2 = ""
    · simp [h2]
    · by_cases hk : pyLower kv.1 = "http" ∨ pyLower kv.1 = "https"
      · simpa [h2, hk] using length_dictSet acc (pyLower kv.1) kv.2
      · simp [h2, hk]

/-- The dict-processing loop yields an empty result exactly when every
entry is skipped (falsy value, or key not `http`/`https` after
lower-casing). -/
theorem foldl_normStep_eq_nil (es : StrDict) :
    es.foldl normStep [] = [] ↔
      ∀ kv ∈ es, kv.2 = "" ∨
        (pyLower kv.1 ≠ "http" ∧ pyLower kv.1 ≠ "https") := by
  induction es with
  | nil => simp
  | cons kv es ih =>
    rw [List.foldl_cons]
    constructor
    · intro h
      by_cases h2 : kv.2 = ""
      · intro q hq
        rcases List.mem_cons.mp hq with h3 | h3
        · left; exact h3 ▸ h2
        · have : normStep [] kv = [] := by simp [normStep, h2]
          exact ih.mp (by rwa [this] at h) q h3
      · by_cases hk : pyLower kv.1 = "http" ∨ pyLower kv.1 = "https"
        · exfalso
          have h1 : normStep [] kv = dictSet [] (pyLower kv.1) kv.2 := by
            simp [normStep, h2, hk]
          have h3 : (1 : Nat) ≤ (es.foldl normStep (normStep [] kv)).length := by
            calc (1 : Nat) = (dictSet [] (pyLower kv.1) kv.2).length := by
                  simp [dictSet]
              _ = (normStep [] kv).length := by rw [h1]
              _ ≤ _ := length_foldl_normStep es _
          rw [h] at h3
          simp at h3
        · intro q hq
          rcases List.mem_cons.mp hq with h3 | h3
          · right
            rw [h3]
            exact ⟨fun e => hk (Or.inl e), fun e => hk (Or.inr e)⟩
          · have : normStep [] kv = [] := by simp [normStep, h2, hk]
            exact ih.mp (by rwa [this] at h) q h3
    · intro h
      have hkv := h kv (List.mem_cons_self kv es)
      have h1 : normStep [] kv = [] := by
        rcases hkv with h2 | h2
        · simp [normStep, h2]
        · by_cases h3 : kv.2 = ""
          · simp [normStep, h3]
          · simp [normStep, h3, h2.1, h2.2]
      rw [h1]
      exact ih.mpr (fun q hq => h q (List.mem_cons_of_mem _ hq))

theorem normalize_proxies_ne_nil (prx : ProxVal) (e : StrDict)
    (h : normalize_proxies prx = some e) : e ≠ [] := by
  cases prx with
  | pyNone => simp [normalize_proxies] at h
  | str s =>
    by_cases hs : s = ""
    · simp [normalize_proxies, hs] at h
    · simp [normalize_proxies, hs] at h
      rw [← h]
      simp
  | dict es =>
    rw [normalize_proxies_dict_eq] at h
    by_cases h1 : es = []
    · simp [h1] at h
    · by_cases h2 : es.foldl normStep [] = []
      · simp [h1, h2] at h
      · simp [h1, h2] at h
        rw [← h]; exact h2
  | other => simp [normalize_proxies] at h

theorem normalize_proxies_nodup (prx : ProxVal) (e : StrDict)
    (h : normalize_proxies prx = some e) : (dictKeys e).Nodup := by
  cases prx with
  | pyNone => simp [normalize_proxies] at h
  | str s =>
    by_cases hs : s = ""
    · simp [normalize_proxies, hs] at h
    · simp [normalize_proxies, hs] at h
      rw [← h]
      simp [dictKeys]
  | dict es =>
    rw [normalize_proxies_dict_eq] at h
    by_cases h1 : es = []
    · simp [h1] at h
    · by_cases h2 : es.foldl normStep [] = []
      · simp [h1, h2] at h
      · simp [h1, h2] at h
        rw [← h]
        exact foldl_normStep_nodup es [] (by simp [dictKeys])
  | other => simp [normalize_proxies] at h

theorem normalize_proxies_entries (prx : ProxVal) (e : StrDict)
    (h : normalize_proxies prx = some e) :
    ∀ p ∈ e, (p.1 = "http" ∨ p.1 = "https") ∧ p.2 ≠ "" := by
  cases prx with
  | pyNone => simp [normalize_proxies] at h
  | str s =>
    by_cases hs : s = ""
    · simp [normalize_proxies, hs] at h
    · simp [normalize_proxies, hs] at h
      rw [← h]
      intro p hp
      rcases List.mem_cons.mp hp with h2 | h2
      · rw [h2]; exact ⟨Or.inl rfl, hs⟩
      · simp at h2
        rw [h2]; exact ⟨Or.inr rfl, hs⟩
  | dict es =>
    rw [normalize_proxies_dict_eq] at h
    by_cases h1 : es = []
    · simp [h1] at h
    · by_cases h2 : es.foldl normStep [] = []
      · simp [h1, h2] at h
      · simp [h1, h2] at h
        rw [← h]
        exact foldl_normStep_entries es [] (by simp)
  | other => simp [normalize_proxies] at h

/-- Does a request plan stop with the pre-dispatch configuration error? -/
def isConfigError : RequestPlan → Bool
  | .configError _ => true
  | _ => false

/-- When every value in the dict is truthy, Python `or` chaining on
`get` results agrees with `Option.orElse`. -/
theorem orStr_eq_orElse (d : StrDict) (hv : ∀ p ∈ d, p.2 ≠ "")
    (k : String) (alt : Option String) :
    orStr (dictGet d k) alt = (dictGet d k).orElse fun _ => alt := by
  cases hg : dictGet d k with
  | none => rfl
  | some v =>
    have hvne : v ≠ "" := by
      unfold dictGet at hg
      cases hf : d.find? (fun p => p.1 = k) with
      | none => rw [hf] at hg; simp at hg
      | some p =>
        rw [hf] at hg
        simp at hg
        exact hg ▸ hv p (List.mem_of_find?_eq_some hf)
    simp [orStr, hvne, Option.orElse]

/-- The configuration `_AiohttpAsyncSession.__init__` derives from its
kwargs (lines 176-201, proxy/timeout part): the session
`ClientTimeout(total=...)` — or `None` when `_to_timeout` yields
`None` — and the default proxy map. -/
def initSessionState (timeout : PyVal) (proxy : Option String)
    (proxies : ProxVal) : Option PyFloat × Option StrDict :=
  (to_timeout timeout, sessionDefaultProxies proxy proxies)

/-! ### The claims -/

/-- C1: whenever the resolved effective proxy URL starts
(case-insensitively) with `socks` and SOCKS connector support is
unavailable, `request` raises the configuration `RequestsError` before
any dispatch: the result is that error with zero engine dispatches,
whatever the engine would have done. -/
theorem C1_socks_config_error (s : SessionCfg) (url : String) (o : CallOpts)
    (p : String) (eng : EngineOutcome)
    (hp : effectiveProxyUrl s url o = some p)
    (hs : ("socks".data).isPrefixOf (p.data.map Char.toLower) = true) :
    runRequest false s url o eng =
      (.raisedRequestsError
        "SOCKS proxy requested but aiohttp-socks is not installed", 0) := by
  have hne : ¬(p = "") := by
    intro e
    subst e
    exact absurd hs (by decide)
  have hu : usesSocks (effectiveProxyUrl s url o) = true := by
    rw [hp]
    simp [usesSocks, hne, hs]
  simp [runRequest, planRequest, hu]

theorem C1_socks_config_error_witness :
    runRequest false {} "http://x" { proxy := some "socks5://h" }
        (.success 200 [[97]]) =
      (.raisedRequestsError
        "SOCKS proxy requested but aiohttp-socks is not installed", 0) :=
  C1_socks_config_error {} "http://x" { proxy := some "socks5://h" }
    "socks5://h" (.success 200 [[97]]) (by decide) (by decide)

/-- C2: `close` is idempotent — any positive number of invocations
equals one invocation — and a single invocation increments the
handle-release and owned-session-close counters by at most one (so the
resources are released at most once across all exit paths, every one of
which funnels into `close`); a `close` on an already-closed Response is
an exact no-op, and `__aexit__` is the same operation. -/
theorem C2_close_idempotent (r : AResp) (n : Nat) (hn : 1 ≤ n) :
    closeResp^[n] r = closeResp r
    ∧ (closeResp r).releaseCount ≤ r.releaseCount + 1
    ∧ (closeResp r).ownedCloseCount ≤ r.ownedCloseCount + 1
    ∧ (r.closed = true → closeResp r = r)
    ∧ aexitResp r = closeResp r :=
  ⟨closeResp_iterate r n hn, closeResp_releaseCount r,
   closeResp_ownedCloseCount r, closeResp_of_closed r, rfl⟩

theorem C2_close_idempotent_witness :
    closeResp^[2] (mkUnread 200 [[97]] true) = closeResp (mkUnread 200 [[97]] true)
    ∧ (closeResp (mkUnread 200 [[97]] true)).releaseCount ≤
        (mkUnread 200 [[97]] true).releaseCount + 1
    ∧ (closeResp (mkUnread 200 [[97]] true)).ownedCloseCount ≤
        (mkUnread 200 [[97]] true).ownedCloseCount + 1
    ∧ ((mkUnread 200 [[97]] true).closed = true →
        closeResp (mkUnread 200 [[97]] true) = mkUnread 200 [[97]] true)
    ∧ aexitResp (mkUnread 200 [[97]] true) = closeResp (mkUnread 200 [[97]] true) :=
  C2_close_idempotent (mkUnread 200 [[97]] true) 2 (by decide)

/-- C3: once `request` reaches a dispatch (no configuration error), an
engine `ClientError` or `TimeoutError` is re-raised as `RequestsError`
carrying the underlying message, and any other exception type propagates
unchanged. -/
theorem C3_error_mapping (sa : Bool) (s : SessionCfg) (url : String)
    (o : CallOpts) (m t : String)
    (hnc : isConfigError (planRequest sa s url o) = false) :
    runRequest sa s url o (.raise (.clientError m)) = (.raisedRequestsError m, 1)
    ∧ runRequest sa s url o (.raise (.timeoutError m)) = (.raisedRequestsError m, 1)
    ∧ runRequest sa s url o (.raise (.other t m)) = (.raisedOther t m, 1) := by
  unfold runRequest
  cases hp : planRequest sa s url o with
  | configError c => rw [hp] at hnc; simp [isConfigError] at hnc
  | dispatchTemp p tmo sslr ar st => exact ⟨rfl, rfl, rfl⟩
  | dispatchMain p tmo sslr ar st => exact ⟨rfl, rfl, rfl⟩

theorem C3_error_mapping_witness :
    runRequest true {} "http://x" {} (.raise (.clientError "boom")) =
      (.raisedRequestsError "boom", 1)
    ∧ runRequest true {} "http://x" {} (.raise (.timeoutError "boom")) =
      (.raisedRequestsError "boom", 1)
    ∧ runRequest true {} "http://x" {} (.raise (.other "ValueError" "boom")) =
      (.raisedOther "ValueError" "boom", 1) :=
  C3_error_mapping true {} "http://x" {} "boom" "ValueError" (by decide)

/-- C4: `json()` on an unmaterialized body raises the usage
`RuntimeError` immediately; a materialized empty body yields the empty
mapping; a materialized non-empty body is decoded as UTF-8 and handed to
the JSON parser. -/
theorem C4_json_states (r : AResp) :
    (r.body = none →
      jsonResp r =
        .usageError "JSON body not available yet. Read stream content first.")
    ∧ (r.body = some [] → jsonResp r = .emptyMapping)
    ∧ (∀ bs, r.body = some bs → bs ≠ [] →
        jsonResp r = .parsed (decodeUtf8Replace bs)) := by
  refine ⟨fun h => ?_, fun h => ?_, fun bs h hne => ?_⟩
  · simp [jsonResp, h]
  · simp [jsonResp, h]
  · simp [jsonResp, h, hne]

theorem C4_json_states_witness :
    jsonResp (mkUnread 200 [[97]] false) =
      .usageError "JSON body not available yet. Read stream content first."
    ∧ jsonResp (mkMaterialized 200 [] false) = .emptyMapping
    ∧ jsonResp (mkMaterialized 200 [97, 98] false) = .parsed ['a', 'b'] := by
  refine ⟨(C4_json_states (mkUnread 200 [[97]] false)).1 rfl,
    (C4_json_states (mkMaterialized 200 [] false)).2.1 rfl, ?_⟩
  rw [(C4_json_states (mkMaterialized 200 [97, 98] false)).2.2 [97, 98] rfl
    (by decide)]
  decide

/-- C5 as stated is false: a materialized body containing a lone
carriage return is split by `splitlines` (universal newlines), not by
line-feed splitting, and the streaming path strips all trailing carriage
returns from a line, not one. -/
theorem C5_counterexample :
    aiterLines (mkMaterialized 200 [97, 13, 98] false) ≠
      claimLinesAsStated [97, 13, 98]
    ∧ aiterLines (mkUnread 200 [[97, 13, 13, 10]] false) ≠
      claimLinesAsStated [97, 13, 13, 10] := by
  decide

/-- C5 (amended): in the live-stream state, for any chunking of the body
bytes, `aiter_lines()` yields exactly the segments obtained by splitting
the concatenated bytes on line-feed, decoding each as UTF-8 with
replacement and stripping all trailing carriage returns, with a
non-empty remainder flushed as a final line; in the materialized state
it yields the decoded body's universal-newline `splitlines`.  Both
states agree on the claim's examples: `b"a\nb\nc"` gives `a`, `b`, `c`
and `b"a\r\nb\r\n"` gives `a`, `b`. -/
theorem C5_aiter_lines_amended :
    (∀ st owned chunks, aiterLines (mkUnread st chunks owned) =
      specStreamLines chunks.flatten)
    ∧ (∀ st owned bs, aiterLines (mkMaterialized st bs owned) =
        pySplitlines (decodeUtf8Replace bs))
    ∧ aiterLines (mkUnread 200 [[97, 10, 98], [10, 99]] false) =
        [['a'], ['b'], ['c']]
    ∧ aiterLines (mkMaterialized 200 [97, 10, 98, 10, 99] false) =
        [['a'], ['b'], ['c']]
    ∧ aiterLines (mkUnread 200 [[97, 13, 10, 98, 13, 10]] false) = [['a'], ['b']]
    ∧ aiterLines (mkMaterialized 200 [97, 13, 10, 98, 13, 10] false) =
        [['a'], ['b']] := by
  refine ⟨fun st owned chunks => ?_, fun st owned bs => rfl, ?_, ?_, ?_, ?_⟩
  · simpa [aiterLines, mkUnread] using streamLines_eq_spec chunks
  · decide
  · decide
  · decide
  · decide

/-- C6: `_ssl_for_verify` returns the disabled-verification marker
exactly for the values equal (under Python `==`) to a member of the
falsy-token tuple `{False, 0, "0", "false", "False", "no", "off"}`, and
the trust-store-backed verified context for every other value — over the
modelled scalar universe the two characterizations coincide with literal
membership in the token list. -/
theorem C6_ssl_verify_tokens (v : PyVal) :
    (ssl_for_verify v = .disabled ↔ v ∈ falsyTokens)
    ∧ (ssl_for_verify v = .verifiedContext ↔ v ∉ falsyTokens) := by
  have key : (falsyTokens.any fun t => pyEqual v t) = true ↔ v ∈ falsyTokens := by
    cases v with
    | pyNone => decide
    | pyBool b => cases b <;> decide
    | pyInt n =>
      by_cases h : n = 0
      · subst h; decide
      · simp [falsyTokens, pyEqual, h]
    | pyStr s => simp [falsyTokens, pyEqual]
  by_cases hc : (falsyTokens.any fun t => pyEqual v t) = true
  · have hm : v ∈ falsyTokens := key.mp hc
    simp [ssl_for_verify, hc, hm]
  · have hm : v ∉ falsyTokens := fun m => hc (key.mpr m)
    simp [ssl_for_verify, hc, hm]

/-- C7: the effective proxy map gives both scheme keys to a truthy
per-call singular `proxy`; with no singular proxy it is the session
default overlaid (right-biased on lookups) with the normalized per-call
`proxies`; and in particular `proxies={"https": P1}` with `proxy=P2`
yields exactly the map `{http: P2, https: P2}`. -/
theorem C7_proxy_precedence :
    (∀ (sd : Option StrDict) (prx : ProxVal) (p : String), p ≠ "" →
      dictGet (buildProxyMap sd prx (some p)) "http" = some p
      ∧ dictGet (buildProxyMap sd prx (some p)) "https" = some p)
    ∧ (∀ (d : StrDict) (prx : ProxVal) (e : StrDict),
        normalize_proxies prx = some e → ∀ k,
        dictGet (buildProxyMap (some d) prx none) k =
          match dictGet e k with
          | some v => some v
          | none => dictGet d k)
    ∧ (∀ p1 p2 : String, p1 ≠ "" → p2 ≠ "" → ∀ k,
        dictGet (buildProxyMap none (.dict [("https", p1)]) (some p2)) k =
          dictGet [("http", p2), ("https", p2)] k) := by
  have hneq : ¬(("http" : String) = "https") := by decide
  refine ⟨fun sd prx p hp => ?_, fun d prx e hprx k => ?_,
    fun p1 p2 h1 h2 k => ?_⟩
  · have hb : buildProxyMap sd prx (some p) =
        dictSet (dictSet (match normalize_proxies prx with
          | some e => if e = [] then sd.getD [] else dictUpdate (sd.getD []) e
          | none => sd.getD []) "http" p) "https" p := by
      simp [buildProxyMap, hp]
    rw [hb]
    constructor
    · rw [dictGet_dictSet, dictGet_dictSet]
      simp [hneq]
    · rw [dictGet_dictSet]
      simp
  · have hne := normalize_proxies_ne_nil prx e hprx
    have hb : buildProxyMap (some d) prx none = dictUpdate d e := by
      simp [buildProxyMap, hprx, hne]
    rw [hb, dictGet_dictUpdate e (normalize_proxies_nodup prx e hprx) d k]
  · have hl : pyLower "https" = "https" := by decide
    have hb : buildProxyMap none (.dict [("https", p1)]) (some p2) =
        [("https", p2), ("http", p2)] := by
      simp [buildProxyMap, normalize_proxies, h1, h2, hl, dictUpdate, dictSet,
        hneq]
    rw [hb]
    by_cases hk1 : k = "https"
    · subst hk1
      simp [dictGet, List.find?, hneq]
    · by_cases hk2 : k = "http"
      · subst hk2
        have : ¬(("https" : String) = "http") := by decide
        simp [dictGet, List.find?, this]
      · have g1 : ¬(("https" : String) = k) := fun e => hk1 e.symm
        have g2 : ¬(("http" : String) = k) := fun e => hk2 e.symm
        simp [dictGet, List.find?, g1, g2]

theorem C7_proxy_precedence_witness :
    dictGet (buildProxyMap none (.dict [("https", "P1")]) (some "P2")) "http" =
      some "P2"
    ∧ dictGet (buildProxyMap none (.dict [("https", "P1")]) (some "P2")) "https" =
      dictGet [("http", "P2"), ("https", "P2")] "https" :=
  ⟨(C7_proxy_precedence.1 none (.dict [("https", "P1")]) "P2" (by decide)).1,
   C7_proxy_precedence.2.2 "P1" "P2" (by decide) (by decide) "https"⟩

/-- C8: `_pick_proxy` equals the spec's lookup chain — the entry for the
lower-cased URL scheme (defaulting to `https`), else the `https` entry,
else the `http` entry, else `None` — for every map whose values are
truthy (the invariant of every ProxyMap the program builds); in
particular `{https: P1}` resolves for an `http://` URL to `P1`. -/
theorem C8_pick_scheme_fallback :
    (∀ (url : String) (d : StrDict), (∀ p ∈ d, p.2 ≠ "") →
      pick_proxy url (some d) = pickProxySpec url d)
    ∧ pick_proxy "http://host" (some [("https", "P1")]) = some "P1" := by
  refine ⟨fun url d hv => ?_, by decide⟩
  by_cases hd : d = []
  · subst hd
    simp [pick_proxy, pickProxySpec, dictGet, List.find?]
  · simp only [pick_proxy, pickProxySpec, if_neg hd]
    rw [orStr_eq_orElse d hv, orStr_eq_orElse d hv]
    cases dictGet d (pyLower (if url_scheme url = "" then "https" else url_scheme url)) <;>
      cases dictGet d "https" <;> simp [Option.orElse]

theorem C8_pick_scheme_fallback_witness :
    pick_proxy "http://host" (some [("https", "P1")]) =
      pickProxySpec "http://host" [("https", "P1")] :=
  C8_pick_scheme_fallback.1 "http://host" [("https", "P1")] (by decide)

/-- C9: `_normalize_proxies` maps falsy and unrecognized values to
`None`, a non-empty string to the two-scheme map, and a dict to its
lower-cased `http`/`https` entries with truthy values (`None` exactly
when no entry qualifies); consequently every proxy map the program
builds — session default or per-request effective map — has no keys
other than `http` and `https`. -/
theorem C9_normalize_invariant :
    (normalize_proxies .pyNone = none
      ∧ normalize_proxies (.str "") = none
      ∧ normalize_proxies (.dict []) = none
      ∧ normalize_proxies .other = none)
    ∧ (∀ s : String, s ≠ "" →
        normalize_proxies (.str s) = some [("http", s), ("https", s)])
    ∧ (∀ es e, normalize_proxies (.dict es) = some e →
        ∀ p ∈ e, (p.1 = "http" ∨ p.1 = "https") ∧ p.2 ≠ "")
    ∧ (∀ es, es ≠ [] →
        (normalize_proxies (.dict es) = none ↔
          ∀ kv ∈ es, kv.2 = "" ∨
            (pyLower kv.1 ≠ "http" ∧ pyLower kv.1 ≠ "https")))
    ∧ (∀ (proxy : Option String) (prx : ProxVal) (d : StrDict),
        sessionDefaultProxies proxy prx = some d → keysOk d)
    ∧ (∀ (sd : Option StrDict) (prx : ProxVal) (p : Option String),
        (∀ d, sd = some d → keysOk d) → keysOk (buildProxyMap sd prx p)) := by
  have hnorm_keys : ∀ (prx : ProxVal) (e : StrDict),
      normalize_proxies prx = some e → keysOk e :=
    fun prx e h p hp => (normalize_proxies_entries prx e h p hp).1
  refine ⟨⟨rfl, by decide, by decide, rfl⟩,
    fun s hs => by simp [normalize_proxies, hs],
    fun es e h => normalize_proxies_entries (.dict es) e h,
    fun es hne => ?_, fun proxy prx d h => ?_, fun sd prx p h => ?_⟩
  · rw [normalize_proxies_dict_eq, if_neg hne]
    by_cases hf : es.foldl normStep [] = []
    · rw [if_pos hf]
      exact ⟨fun _ => (foldl_normStep_eq_nil es).mp hf, fun _ => rfl⟩
    · rw [if_neg hf]
      constructor
      · intro hcontra
        simp at hcontra
      · intro hall
        exact absurd ((foldl_normStep_eq_nil es).mpr hall) hf
  · -- session default map
    cases proxy with
    | none => exact hnorm_keys prx d h
    | some p =>
      by_cases hps : p = ""
      · subst hps
        have h' : normalize_proxies prx = some d := by
          simpa [sessionDefaultProxies] using h
        exact hnorm_keys prx d h'
      · have hbase : keysOk ((normalize_proxies prx).getD []) := by
          cases hn : normalize_proxies prx with
          | none => intro q hq; simp at hq
          | some e => simpa using hnorm_keys prx e hn
        have h1 := keysOk_dictSet _ "http" p hbase (Or.inl rfl)
        have h2 := keysOk_dictSet _ "https" p h1 (Or.inr rfl)
        have h' : dictSet (dictSet ((normalize_proxies prx).getD []) "http" p)
            "https" p = d := by
          have := h
          simp only [sessionDefaultProxies, if_neg hps] at this
          exact Option.some.inj this
        rw [← h']
        exact h2
  · -- per-request effective map
    have hm : keysOk (sd.getD []) := by
      cases hsd : sd with
      | none => intro q hq; simp at hq
      | some d2 => simpa using h d2 hsd
    have hm2 : keysOk (match normalize_proxies prx with
        | some e => if e = [] then sd.getD [] else dictUpdate (sd.getD []) e
        | none => sd.getD []) := by
      cases hn : normalize_proxies prx with
      | none => simpa using hm
      | some e =>
        by_cases he : e = []
        · simpa [he] using hm
        · simpa [he] using
            keysOk_dictUpdate e (hnorm_keys prx e hn) (sd.getD []) hm
    cases hp : p with
    | none => simpa [buildProxyMap] using hm2
    | some pv =>
      by_cases hps : pv = ""
      · simpa [buildProxyMap, hps] using hm2
      · have h1 := keysOk_dictSet _ "http" pv hm2 (Or.inl rfl)
        have h2 := keysOk_dictSet _ "https" pv h1 (Or.inr rfl)
        simpa [buildProxyMap, hps] using h2

theorem C9_normalize_invariant_witness :
    normalize_proxies (.str "u") = some [("http", "u"), ("https", "u")] :=
  C9_normalize_invariant.2.1 "u" (by decide)

/-- C10: a timeout value on which `float(...)` fails — session-level or
per-call — is silently coerced to `None`: `_to_timeout` swallows the
error, the session stores no timeout, and the request plans and runs
exactly as if no timeout had been supplied. -/
theorem C10_timeout_coercion (v : PyVal) (hv : pyFloat v = none) :
    to_timeout v = none
    ∧ (∀ (proxy : Option String) (prx : ProxVal),
        initSessionState v proxy prx = initSessionState .pyNone proxy prx)
    ∧ (∀ (sa : Bool) (s : SessionCfg) (url : String) (o : CallOpts),
        planRequest sa s url { o with timeout := v } =
          planRequest sa s url { o with timeout := .pyNone })
    ∧ (∀ (sa : Bool) (s : SessionCfg) (url : String) (o : CallOpts)
        (eng : EngineOutcome),
        runRequest sa s url { o with timeout := v } eng =
          runRequest sa s url { o with timeout := .pyNone } eng) := by
  have ht : to_timeout v = none := by
    cases v
    · rfl
    · exact hv
    · exact hv
    · exact hv
  have h0 : to_timeout PyVal.pyNone = none := rfl
  have hplan : ∀ (sa : Bool) (s : SessionCfg) (url : String) (o : CallOpts),
      planRequest sa s url { o with timeout := v } =
        planRequest sa s url { o with timeout := .pyNone } := by
    intro sa s url o
    simp [planRequest, effectiveProxyUrl, ht, h0]
  refine ⟨ht, fun proxy prx => ?_, hplan, fun sa s url o eng => ?_⟩
  · simp [initSessionState, ht, h0]
  · unfold runRequest
    rw [hplan sa s url o]

theorem C10_timeout_coercion_witness :
    to_timeout (.pyStr "abc") = none
    ∧ runRequest true {} "http://x" { timeout := .pyStr "abc" }
        (.success 200 [[97]]) =
      runRequest true {} "http://x" { timeout := .pyNone }
        (.success 200 [[97]]) := by
  have h := C10_timeout_coercion (.pyStr "abc") (by decide)
  exact ⟨h.1, h.2.2.2 true {} "http://x" {} (.success 200 [[97]])⟩

end HttpClient
